import Mathlib

/-!
Verification of the Keto voice-agent core (TypeScript sources under
src/server/) against its natural-language specification.

The relevant TypeScript is shallowly embedded below:
  - the sentence segmentation of src/server/services/llm.service.ts
    (streamResponse / splitIntoSentences),
  - the conversation store of src/server/stores/conversation.store.ts,
  - the abort controller of src/server/abort-controller.ts,
  - the session event handling of src/server/websocket-handler.ts
    (handleFluxTurnInfo, generateLLMResponse, handleInterrupt and the
    TTS drain loop), modelled as a small-step transition system over the
    suspension points of the single-threaded event loop.

Strings are modelled as List Char; JavaScript whitespace and trimming
are modelled explicitly.
-/

namespace Keto

/-! ## JavaScript string primitives -/

/-- Code points of the JavaScript WhiteSpace and LineTerminator productions:
the character class matched by the regex class backslash-s and stripped by
String.prototype.trim. -/
def jsWhitespaceCodes : List Nat :=
  [9, 10, 11, 12, 13, 32, 160, 5760,
   8192, 8193, 8194, 8195, 8196, 8197, 8198, 8199, 8200, 8201, 8202,
   8232, 8233, 8239, 8287, 12288, 65279]

/-- Whether a character is JavaScript whitespace. -/
def isJsSpace (c : Char) : Bool := jsWhitespaceCodes.contains c.toNat

/-- JavaScript String.prototype.trim: strip leading and trailing whitespace. -/
def jsTrim (cs : List Char) : List Char :=
  ((cs.dropWhile isJsSpace).reverse.dropWhile isJsSpace).reverse

/-! ## Sentence segmentation (llm.service.ts, splitIntoSentences)

The source splits on the global regex ([.!?]+["')\x5d]?)\s+ : one or more
terminal punctuation marks, an optional closing quote or bracket, then at
least one whitespace character.  Because the three character classes are
pairwise disjoint, the regex backtracks never; leftmost matching is
realized below as a single left-to-right scan with a four-state mode:
  - normal: not currently inside a potential boundary;
  - punct: the last characters are a run of [.!?] (a match could end here);
  - punctCloser: that run is followed by one closing mark;
  - trailingWs: punctuation (and optional closer) followed by whitespace
    so far, i.e. a successful match whose greedy trailing run of
    whitespace is still being extended.
A boundary completes when, in mode trailingWs, a non-whitespace character
(or the end of the text) is reached; the segment scanned so far is then
the JS substring from the previous lastIndex through the end of the match,
and it is pushed after trimming, exactly as in the source. -/

/-- Terminal sentence punctuation, the regex class [.!?]. -/
def isSentencePunct (c : Char) : Bool := c = '.' || c = '!' || c = '?'

/-- Optional closing marks after the punctuation: double quote, single
quote, closing parenthesis, closing square bracket. -/
def isClosingMark (c : Char) : Bool :=
  c = Char.ofNat 34 || c = Char.ofNat 39 || c = ')' || c = ']'

/-- Scanner mode for the sentence-boundary regex, see above. -/
inductive ScanMode where
  | normal
  | punct
  | punctCloser
  | trailingWs
deriving DecidableEq, Repr

/-- Scanner state: current mode, the characters of the current segment in
reverse order, and the sentences already produced. -/
structure ScanState where
  mode : ScanMode
  pendingRev : List Char
  sents : List (List Char)
deriving DecidableEq, Repr

/-- Push a completed segment: the source trims it and drops it when empty
(both the per-match push and the final remainder push do exactly this). -/
def pushSentence (sents : List (List Char)) (seg : List Char) : List (List Char) :=
  let t := jsTrim seg
  if t.isEmpty then sents else sents ++ [t]

/-- One character of the boundary scan. -/
def scanStep (st : ScanState) (c : Char) : ScanState :=
  match st.mode with
  | ScanMode.trailingWs =>
      if isJsSpace c then
        { st with pendingRev := c :: st.pendingRev }
      else
        let sents := pushSentence st.sents st.pendingRev.reverse
        { mode := if isSentencePunct c then ScanMode.punct else ScanMode.normal,
          pendingRev := [c], sents := sents }
  | ScanMode.punct =>
      if isSentencePunct c then { st with pendingRev := c :: st.pendingRev }
      else if isClosingMark c then
        { st with mode := ScanMode.punctCloser, pendingRev := c :: st.pendingRev }
      else if isJsSpace c then
        { st with mode := ScanMode.trailingWs, pendingRev := c :: st.pendingRev }
      else { st with mode := ScanMode.normal, pendingRev := c :: st.pendingRev }
  | ScanMode.punctCloser =>
      if isJsSpace c then
        { st with mode := ScanMode.trailingWs, pendingRev := c :: st.pendingRev }
      else if isSentencePunct c then
        { st with mode := ScanMode.punct, pendingRev := c :: st.pendingRev }
      else { st with mode := ScanMode.normal, pendingRev := c :: st.pendingRev }
  | ScanMode.normal =>
      if isSentencePunct c then
        { st with mode := ScanMode.punct, pendingRev := c :: st.pendingRev }
      else { st with mode := ScanMode.normal, pendingRev := c :: st.pendingRev }

/-- splitIntoSentences (llm.service.ts lines 129-155): run the boundary
scan; at the end of the text the pending segment is pushed trimmed (this
covers both a match whose trailing whitespace reaches the end of the text
and the untrimmed remainder after the last match, which the source pushes
trimmed and non-empty); if no sentence was produced the source returns
[text] unchanged. -/
def splitIntoSentences (text : List Char) : List (List Char) :=
  let st := text.foldl scanStep
    { mode := ScanMode.normal, pendingRev := [], sents := [] }
  let sentences := pushSentence st.sents st.pendingRev.reverse
  if sentences.isEmpty then [text] else sentences

/-! ## Streamed response segmentation (llm.service.ts, streamResponse) -/

/-- State of the chunk loop in streamResponse: the unterminated buffer,
the accumulated full text, and the sentences passed to onSentence so far. -/
structure StreamState where
  buffer : List Char
  fullText : List Char
  emitted : List (List Char)
deriving DecidableEq, Repr

/-- Processing of one streamed chunk (llm.service.ts lines 56-74): append
the content to buffer and fullText; split the buffer; if more than one
sentence results, emit all but the last (trimmed, skipping empties) and
keep the last as the new buffer. -/
def processChunk (st : StreamState) (content : List Char) : StreamState :=
  if content.isEmpty then st
  else
    let buffer := st.buffer ++ content
    let fullText := st.fullText ++ content
    let sentences := splitIntoSentences buffer
    if 1 < sentences.length then
      let newEmits := (sentences.dropLast.map jsTrim).filter (fun s => !s.isEmpty)
      { buffer := sentences.getLast?.getD [],
        fullText := fullText,
        emitted := st.emitted ++ newEmits }
    else
      { buffer := buffer, fullText := fullText, emitted := st.emitted }

/-- End of the stream (llm.service.ts lines 76-79): flush the remaining
buffer as a final sentence when it is non-empty after trimming. -/
def finishStream (st : StreamState) : List (List Char) :=
  if (jsTrim st.buffer).isEmpty then st.emitted
  else st.emitted ++ [jsTrim st.buffer]

/-- Initial state of the chunk loop. -/
def initialStreamState : StreamState :=
  { buffer := [], fullText := [], emitted := [] }

/-- All sentences emitted by streamResponse for a fully streamed sequence
of chunks, including the final flush. -/
def streamSentences (chunks : List (List Char)) : List (List Char) :=
  finishStream (chunks.foldl processChunk initialStreamState)

/-- The full generated text accumulated by streamResponse. -/
def streamFullText (chunks : List (List Char)) : List Char :=
  (chunks.foldl processChunk initialStreamState).fullText

/-- Join sentences with a single space, the most charitable reading of
reassembling emitted sentences at sentence boundaries. -/
def joinWithSpace (l : List (List Char)) : List Char :=
  match l with
  | [] => []
  | s :: rest => rest.foldl (fun acc t => acc ++ [' '] ++ t) s

/-- Collapse every run of whitespace to a single space character. -/
def collapseWs : List Char → List Char
  | [] => []
  | [c] => if isJsSpace c then [' '] else [c]
  | c :: c2 :: rest =>
      if isJsSpace c && isJsSpace c2 then collapseWs (c2 :: rest)
      else (if isJsSpace c then ' ' else c) :: collapseWs (c2 :: rest)

/-- Whitespace normalization: collapse runs to single spaces, trim ends. -/
def normalizeWs (cs : List Char) : List Char := jsTrim (collapseWs cs)

/-! ## Conversation history (conversation.store.ts) -/

/-- Message role (conversation.store.ts line 16). -/
inductive MessageRole where
  | user
  | assistant
deriving DecidableEq, Repr

/-- A stored conversation message (conversation.store.ts lines 18-22). -/
structure ConversationMessage where
  role : MessageRole
  content : List Char
  timestamp : Nat
deriving DecidableEq, Repr

/-- addMessage (conversation.store.ts lines 110-136): trim the content and
drop it silently when empty; otherwise append a message stamped with the
current time, then enforce the maxMessages cap by slicing off the oldest
excess entries.  The Date.now() value is passed in as the explicit
parameter now. -/
def addMessage (maxMessages : Nat) (msgs : List ConversationMessage)
    (role : MessageRole) (content : List Char) (now : Nat) :
    List ConversationMessage :=
  let trimmedContent := jsTrim content
  if trimmedContent.isEmpty then msgs
  else
    let msgs1 := msgs ++ [{ role := role, content := trimmedContent, timestamp := now }]
    if maxMessages < msgs1.length then msgs1.drop (msgs1.length - maxMessages)
    else msgs1

/-- One pending append: role, raw content, and its Date.now() timestamp. -/
structure AddInput where
  role : MessageRole
  content : List Char
  now : Nat
deriving DecidableEq, Repr

/-- The history after a whole sequence of addUserMessage / addAssistantMessage
calls starting from the empty log. -/
def runAdds (maxMessages : Nat) (inputs : List AddInput) : List ConversationMessage :=
  inputs.foldl (fun msgs i => addMessage maxMessages msgs i.role i.content i.now) []

/-- The appended messages that survive the empty-after-trim filter, in
append order, before any cap is applied. -/
def validMessages (inputs : List AddInput) : List ConversationMessage :=
  inputs.filterMap (fun i =>
    if (jsTrim i.content).isEmpty then none
    else some { role := i.role, content := jsTrim i.content, timestamp := i.now })

/-- The last n entries of a list, in order. -/
def lastN (n : Nat) (l : List ConversationMessage) : List ConversationMessage :=
  l.drop (l.length - n)

/-- estimateMessageTokens (conversation.store.ts lines 172-175):
ceil(content.length / 4) + 4. -/
def estimateMessageTokens (m : ConversationMessage) : Nat :=
  (m.content.length + 3) / 4 + 4

/-- Total estimated tokens of a message list
(estimateTokens, conversation.store.ts lines 177-179). -/
def sumEstimatedTokens (l : List ConversationMessage) : Nat :=
  (l.map estimateMessageTokens).sum

/-- The newest-first walk of trimToTokenBudget (conversation.store.ts lines
142-158): take messages while the accumulated total stays within budget,
breaking at the first message whose inclusion would exceed it. -/
def takeWithinBudget (budget : Nat) : Nat → List ConversationMessage → List ConversationMessage
  | _, [] => []
  | total, m :: rest =>
      if budget < total + estimateMessageTokens m then []
      else m :: takeWithinBudget budget (total + estimateMessageTokens m) rest

/-- trimToTokenBudget (conversation.store.ts lines 142-167): walk backwards
from the most recent message accumulating estimated tokens; the source
builds the result with unshift, which is the reverse of the newest-first
list collected by the walk. -/
def trimToTokenBudget (budget : Nat) (msgs : List ConversationMessage) :
    List ConversationMessage :=
  (takeWithinBudget budget 0 msgs.reverse).reverse

/-- getMessagesForLLM (conversation.store.ts lines 69-72): the trimmed
history projected to role and content. -/
def getMessagesForLLM (budget : Nat) (msgs : List ConversationMessage) :
    List (MessageRole × List Char) :=
  (trimToTokenBudget budget msgs).map (fun m => (m.role, m.content))

/-- The diagnostics record built by getSummary. -/
structure ConversationSummary where
  messageCount : Nat
  estimatedTokens : Nat
  oldestMessage : Option Nat
  newestMessage : Option Nat
deriving DecidableEq, Repr

/-- getSummary (conversation.store.ts lines 99-106). -/
def getSummary (msgs : List ConversationMessage) : ConversationSummary :=
  { messageCount := msgs.length,
    estimatedTokens := sumEstimatedTokens msgs,
    oldestMessage := msgs.head?.map (fun m => m.timestamp),
    newestMessage := msgs.getLast?.map (fun m => m.timestamp) }

/-! ### Heap model for object identity

getFullHistory returns the spread copy [...this.messages].  The spread
operator copies the ARRAY but not its elements: the fresh array holds
the very same ConversationMessage object references as this.messages (a
shallow copy).  To state what this does and does not protect, JavaScript
objects are given identity: the heap holds ConversationMessage objects
addressed by references and arrays of such references; the history
object owns the reference of its internal messages array. -/

/-- The message object a dangling reference dereferences to; never
reached in the theorems below. -/
def defaultMessage : ConversationMessage :=
  { role := MessageRole.user, content := [], timestamp := 0 }

/-- A heap of ConversationMessage objects (msgCells, addressed by index)
and of arrays of message references (arrCells, addressed by index). -/
structure ConvHeap where
  msgCells : List ConversationMessage
  arrCells : List (List Nat)
deriving DecidableEq, Repr

/-- Dereference a message object. -/
def ConvHeap.readMsg (h : ConvHeap) (r : Nat) : ConversationMessage :=
  h.msgCells.getD r defaultMessage

/-- Dereference an array of message references. -/
def ConvHeap.readArr (h : ConvHeap) (r : Nat) : List Nat :=
  h.arrCells.getD r []

/-- The message values an array presents: its references, dereferenced.
This is what every reader of this.messages observes. -/
def ConvHeap.viewArr (h : ConvHeap) (r : Nat) : List ConversationMessage :=
  (h.readArr r).map h.readMsg

/-- In-place mutation of a ConversationMessage object, e.g. external
code assigning to the content field of a message it obtained from a
returned array. -/
def ConvHeap.writeMsg (h : ConvHeap) (r : Nat) (v : ConversationMessage) : ConvHeap :=
  { h with msgCells := h.msgCells.set r v }

/-- In-place mutation of an array object: replacing its elements. -/
def ConvHeap.writeArr (h : ConvHeap) (r : Nat) (v : List Nat) : ConvHeap :=
  { h with arrCells := h.arrCells.set r v }

/-- Allocate a new array, returning the extended heap and its reference. -/
def ConvHeap.allocArr (h : ConvHeap) (v : List Nat) : ConvHeap × Nat :=
  ({ h with arrCells := h.arrCells ++ [v] }, h.arrCells.length)

/-- getFullHistory (conversation.store.ts lines 77-79): the spread
allocates a FRESH array holding the SAME message references — a shallow
copy. -/
def getFullHistoryH (h : ConvHeap) (self : Nat) : ConvHeap × Nat :=
  h.allocArr (h.readArr self)

/-- getMessagesForLLM as a heap operation: a pure read of the message
values followed by trimToTokenBudget; the final map builds FRESH
role/content pairs, so no stored reference escapes here. -/
def getMessagesForLLMH (h : ConvHeap) (self : Nat) (budget : Nat) :
    ConvHeap × List (MessageRole × List Char) :=
  (h, getMessagesForLLM budget (h.viewArr self))

/-- getSummary as a heap operation: a pure read of the message values,
returning fresh scalars. -/
def getSummaryH (h : ConvHeap) (self : Nat) : ConvHeap × ConversationSummary :=
  (h, getSummary (h.viewArr self))

/-! ## TTSAbortController (abort-controller.ts) -/

/-- State of a TTSAbortController (abort-controller.ts lines 7-44).
Callbacks are identified by an abstract type kappa; the Set of callbacks
is modelled as its insertion-order list, which holds no duplicates. -/
structure TTSAbortController (kappa : Type) where
  aborted : Bool
  abortCallbacks : List kappa

/-- A freshly constructed controller. -/
def newController {kappa : Type} : TTSAbortController kappa :=
  { aborted := false, abortCallbacks := [] }

/-- onAbort (abort-controller.ts lines 15-20): Set.add — appends in
insertion order, keeping an already-present callback where it was. -/
def onAbort {kappa : Type} [DecidableEq kappa]
    (s : TTSAbortController kappa) (cb : kappa) : TTSAbortController kappa :=
  if cb ∈ s.abortCallbacks then s
  else { s with abortCallbacks := s.abortCallbacks ++ [cb] }

/-- The deregistration closure returned by onAbort: Set.delete. -/
def offAbort {kappa : Type} [DecidableEq kappa]
    (s : TTSAbortController kappa) (cb : kappa) : TTSAbortController kappa :=
  { s with abortCallbacks := s.abortCallbacks.erase cb }

/-- abort (abort-controller.ts lines 22-38): when already aborted, return
immediately; otherwise set the flag, invoke every registered callback in
registration order (errors are swallowed, so each invocation is just an
entry in the returned trace), and clear the set.  The second component is
the trace of callback invocations this call performs. -/
def abort {kappa : Type} (s : TTSAbortController kappa) :
    TTSAbortController kappa × List kappa :=
  if s.aborted then (s, [])
  else ({ aborted := true, abortCallbacks := [] }, s.abortCallbacks)

/-- An operation on a controller, for stating temporal facts about what
can ever be invoked. -/
inductive CtrlOp (kappa : Type) where
  | reg (cb : kappa)
  | dereg (cb : kappa)
  | abortCall
deriving DecidableEq, Repr

/-- Run a sequence of controller operations, accumulating the invocation
trace of all abort calls in order. -/
def runCtrlOps {kappa : Type} [DecidableEq kappa] :
    TTSAbortController kappa → List (CtrlOp kappa) → TTSAbortController kappa × List kappa
  | s, [] => (s, [])
  | s, CtrlOp.reg cb :: rest => runCtrlOps (onAbort s cb) rest
  | s, CtrlOp.dereg cb :: rest => runCtrlOps (offAbort s cb) rest
  | s, CtrlOp.abortCall :: rest =>
      let r := abort s
      let r2 := runCtrlOps r.1 rest
      (r2.1, r.2 ++ r2.2)

/-! ## Session event handling (websocket-handler.ts)

### Synchronous turn-trigger handling, for the single-generation guard

The three generation triggers (EndOfTurn, EagerEndOfTurn, and a final
Results transcript) all run synchronously up to the llmService
streamResponse call.  The model below captures the session fields they
touch and records the externally visible actions as effects. -/

/-- The session fields touched by the trigger handlers. -/
structure SessionState where
  isProcessingResponse : Bool
  sentenceQueue : List (List Char)
  history : List ConversationMessage
  currentTranscript : List Char
deriving DecidableEq, Repr

/-- An externally visible action of a trigger handler: a transcript
message sent to the client (with its isPartial flag), or the opening of a
new generator stream. -/
inductive TriggerEffect where
  | sentTranscript (t : List Char) (partialFlag : Bool)
  | startedGeneration (t : List Char)
deriving DecidableEq, Repr

/-- The synchronous head of generateLLMResponse (websocket-handler.ts
lines 294-308): when isProcessingResponse is already set, log a warning
and return without touching anything; otherwise set the flag, clear any
leftover sentences, and open the generator stream.  The Bool records
whether a stream was opened. -/
def generateLLMResponseEntry (s : SessionState) : SessionState × Bool :=
  if s.isProcessingResponse then (s, false)
  else ({ s with isProcessingResponse := true, sentenceQueue := [] }, true)

/-- The EndOfTurn / EagerEndOfTurn cases of handleFluxTurnInfo
(websocket-handler.ts lines 218-272): with an empty extracted transcript
the handler returns before doing anything; otherwise it records the
transcript, sends it to the client (isPartial is false for EndOfTurn and
true for EagerEndOfTurn), appends it to the conversation history with the
default cap of 50, and calls generateLLMResponse. -/
def handleTurnTrigger (partialFlag : Bool) (s : SessionState)
    (transcriptText : List Char) (now : Nat) : SessionState × List TriggerEffect :=
  if transcriptText.isEmpty then (s, [])
  else
    let s1 := { s with currentTranscript := transcriptText }
    let s2 := { s1 with
      history := addMessage 50 s1.history MessageRole.user transcriptText now }
    let r := generateLLMResponseEntry s2
    (r.1, [TriggerEffect.sentTranscript transcriptText partialFlag]
          ++ if r.2 then [TriggerEffect.startedGeneration transcriptText] else [])

/-- The EndOfTurn case (isPartial = false on the transcript message). -/
def handleEndOfTurn (s : SessionState) (t : List Char) (now : Nat) :
    SessionState × List TriggerEffect :=
  handleTurnTrigger false s t now

/-- The EagerEndOfTurn case (isPartial = true on the transcript message). -/
def handleEagerEndOfTurn (s : SessionState) (t : List Char) (now : Nat) :
    SessionState × List TriggerEffect :=
  handleTurnTrigger true s t now

/-- The is_final branch of handleDeepgramResults (websocket-handler.ts
lines 189-212): a non-empty final transcript is sent to the client
(isPartial = false), appended to history, and generateLLMResponse is
called — the same shape as EndOfTurn. -/
def handleFinalResult (s : SessionState) (t : List Char) (now : Nat) :
    SessionState × List TriggerEffect :=
  handleTurnTrigger false s t now

/-- Whether a trigger's effect list opened a generator stream. -/
def startedGenerationIn (effs : List TriggerEffect) : Bool :=
  effs.any (fun e =>
    match e with
    | TriggerEffect.startedGeneration _ => true
    | _ => false)

/-! ### Interrupt handling and the TTS drain loop, as a transition system

An interrupt must stop all pre-interrupt audio.  The code paths involved
are the drain loop processNextSentence (websocket-handler.ts lines
310-321), streamTTSForSentence (lines 405-444) with the chunk-reading
loop of tts.service.ts readAudioChunks (lines 86-123), the interrupt
handler handleInterrupt (lines 470-514), and the TurnResumed case of
handleFluxTurnInfo (lines 274-287).

The event loop is single threaded; code between two awaits runs
atomically.  Each suspension point of the drain task is a program-counter
value below, and every resumption of a pending await or arrival of a
client/recognizer message is a scheduler action.  Abort managers are kept
in a heap (a list) because handleInterrupt replaces
session.abortManager with a fresh SessionAbortManager while in-flight
code may still hold the previous one: an index into the heap models such
a captured reference. -/

/-- One SessionAbortManager: the aborted flags of its TTS and LLM
controllers. -/
structure AbortMgr where
  ttsAborted : Bool
  llmAborted : Bool
deriving DecidableEq, Repr

/-- Program counter of the drain task (one per session; processingQueue
and isProcessingResponse guarantee a single instance).
  - loopTop: about to evaluate the while condition of processNextSentence;
  - awaitingConnect s: inside getOrCreateTTSConnection, suspended at
    ttsWs.connect() while handling sentence s;
  - awaitingSend s ctrl: suspended at ws.send inside streamTTSOnConnection,
    with ctrl the index of the TTS controller captured by
    streamTTSForSentence (line 413 reads session.abortManager AFTER the
    connection await);
  - awaitingRead s ctrl: suspended at source.read inside readAudioChunks;
  - idle: the drain loop has exited (processingQueue = false). -/
inductive DrainPC where
  | loopTop
  | awaitingConnect (sentence : List Char)
  | awaitingSend (sentence : List Char) (ctrl : Nat)
  | awaitingRead (sentence : List Char) (ctrl : Nat)
  | idle
deriving DecidableEq, Repr

/-- A message the server sends to the client, restricted to the two kinds
the interrupt contract is about. -/
inductive OutMsg where
  | ttsStopped
  | audioChunk (sentence : List Char)
deriving DecidableEq, Repr

/-- Configuration of one session of the event loop. -/
structure SysConfig where
  sentenceQueue : List (List Char)
  isProcessingResponse : Bool
  managers : List AbortMgr
  currentMgr : Nat
  ttsWebSocketReady : Bool
  drain : DrainPC
  sent : List OutMsg
deriving DecidableEq, Repr

/-- Whether the TTS controller of manager i is aborted.  A dangling index
reads as aborted, which never occurs in the traces below. -/
def mgrTTSAborted (c : SysConfig) (i : Nat) : Bool :=
  (c.managers.getD i { ttsAborted := true, llmAborted := true }).ttsAborted

/-- abortManager.abortAll() on the session's current manager: both
controllers become aborted.  (Its cleanup callbacks disconnect the TTS
socket, which has no client-visible effect modelled here.) -/
def abortAllCurrent (c : SysConfig) : SysConfig :=
  { c with managers :=
      c.managers.set c.currentMgr { ttsAborted := true, llmAborted := true } }

/-- Scheduler actions: run the next synchronous segment of the drain
task, resolve one of its pending awaits, or deliver an interrupt /
TurnResumed message (whose handlers run atomically: they contain no
await before their last modelled statement). -/
inductive SysAct where
  | drainStep
  | connectResolves
  | sendResolves
  | readChunk
  | readEnd
  | interrupt
  | turnResumed
deriving DecidableEq, Repr

/-- The drain task's synchronous segment from the top of the
processNextSentence while loop (websocket-handler.ts lines 315-318): if
the queue is empty or the current TTS controller is aborted the loop
exits; otherwise shift the front sentence and enter streamTTSForSentence,
whose entry re-checks the same current controller (line 407) and then
either returns the ready TTS socket synchronously (line 384) — capturing
the current controller (line 413) and suspending at ws.send — or
suspends at ttsWs.connect() (line 391). -/
def stepDrain (c : SysConfig) : SysConfig :=
  match c.drain with
  | DrainPC.loopTop =>
      match c.sentenceQueue with
      | [] => { c with drain := DrainPC.idle }
      | s :: rest =>
          if mgrTTSAborted c c.currentMgr then { c with drain := DrainPC.idle }
          else if c.ttsWebSocketReady then
            { c with sentenceQueue := rest,
                     drain := DrainPC.awaitingSend s c.currentMgr }
          else
            { c with sentenceQueue := rest, drain := DrainPC.awaitingConnect s }
  | _ => c

/-- Resolution of the ttsWs.connect() await (websocket-handler.ts lines
391-402): the socket is stored on the session and marked ready, a cleanup
callback is registered on the session's CURRENT abort manager, and back
in streamTTSForSentence the current manager's TTS controller is captured
(line 413); the task then suspends at ws.send. -/
def stepConnectResolves (c : SysConfig) : SysConfig :=
  match c.drain with
  | DrainPC.awaitingConnect s =>
      { c with ttsWebSocketReady := true,
               drain := DrainPC.awaitingSend s c.currentMgr }
  | _ => c

/-- Resolution of the ws.send await (tts.service.ts lines 49-64):
readAudioChunks starts and runs synchronously to the top of its read
loop, which first checks the captured abort signal (line 87); when
aborted the reading promise resolves at once and the drain loop resumes
at its while condition, otherwise the task suspends at source.read. -/
def stepSendResolves (c : SysConfig) : SysConfig :=
  match c.drain with
  | DrainPC.awaitingSend s ctrl =>
      if mgrTTSAborted c ctrl then { c with drain := DrainPC.loopTop }
      else { c with drain := DrainPC.awaitingRead s ctrl }
  | _ => c

/-- Resolution of source.read with samplesRead > 0 (tts.service.ts lines
93-114): onAudioChunk sends an audio_chunk message to the client
(websocket-handler.ts lines 419-426), then the loop returns to its top
and re-checks the captured abort signal. -/
def stepReadChunk (c : SysConfig) : SysConfig :=
  match c.drain with
  | DrainPC.awaitingRead s ctrl =>
      let c1 := { c with sent := c.sent ++ [OutMsg.audioChunk s] }
      if mgrTTSAborted c1 ctrl then { c1 with drain := DrainPC.loopTop }
      else { c1 with drain := DrainPC.awaitingRead s ctrl }
  | _ => c

/-- Resolution of source.read signalling the end of the sentence's audio
(tts.service.ts lines 95-104): the reading promise resolves and the drain
loop resumes at its while condition. -/
def stepReadEnd (c : SysConfig) : SysConfig :=
  match c.drain with
  | DrainPC.awaitingRead _ _ => { c with drain := DrainPC.loopTop }
  | _ => c

/-- handleInterrupt (websocket-handler.ts lines 470-514), which runs
atomically: clear the sentence queue first, abort the current manager,
send tts_stopped, reset isProcessingResponse and ttsWebSocketReady,
disconnect and null the TTS socket, then REPLACE session.abortManager
with a fresh SessionAbortManager. -/
def stepInterrupt (c : SysConfig) : SysConfig :=
  let c1 := { c with sentenceQueue := ([] : List (List Char)) }
  let c2 := abortAllCurrent c1
  let c3 := { c2 with sent := c2.sent ++ [OutMsg.ttsStopped] }
  let c4 := { c3 with isProcessingResponse := false, ttsWebSocketReady := false }
  { c4 with managers := c4.managers ++ [{ ttsAborted := false, llmAborted := false }],
            currentMgr := c4.managers.length }

/-- The TurnResumed case of handleFluxTurnInfo (websocket-handler.ts
lines 274-287), which runs atomically: clear the sentence queue, abort
the current manager, reset isProcessingResponse, send tts_stopped.  The
abort manager is NOT replaced here. -/
def stepTurnResumed (c : SysConfig) : SysConfig :=
  let c1 := { c with sentenceQueue := ([] : List (List Char)) }
  let c2 := abortAllCurrent c1
  let c3 := { c2 with isProcessingResponse := false }
  { c3 with sent := c3.sent ++ [OutMsg.ttsStopped] }

/-- One scheduler step. -/
def sysStep (c : SysConfig) : SysAct → SysConfig
  | SysAct.drainStep => stepDrain c
  | SysAct.connectResolves => stepConnectResolves c
  | SysAct.sendResolves => stepSendResolves c
  | SysAct.readChunk => stepReadChunk c
  | SysAct.readEnd => stepReadEnd c
  | SysAct.interrupt => stepInterrupt c
  | SysAct.turnResumed => stepTurnResumed c

/-- Run a schedule. -/
def sysRun (c : SysConfig) (acts : List SysAct) : SysConfig :=
  acts.foldl sysStep c

/-! ## Completion wait (websocket-handler.ts, onComplete) -/

/-- The hard wait bound of the onComplete drain wait
(websocket-handler.ts line 343). -/
def maxWaitTime : Nat := 30000

/-- One observation of the polled loop condition: the processingQueue
flag, the sentence queue length, the LLM controller's aborted flag, and
Date.now() - startTime at this poll. -/
structure CompletionObs where
  processingQueue : Bool
  queueLength : Nat
  llmAborted : Bool
  elapsedMs : Nat
deriving DecidableEq, Repr

/-- The while condition of the onComplete wait loop (websocket-handler.ts
lines 345-349): keep waiting while TTS work remains, the elapsed time is
under maxWaitTime, and the LLM controller is not aborted. -/
def waitContinues (o : CompletionObs) : Bool :=
  (o.processingQueue || decide (0 < o.queueLength))
    && decide (o.elapsedMs < maxWaitTime) && !o.llmAborted

/-- The wait loop over the successive observations of its condition:
returns the observation at which the loop exited, or none when the
observation sequence ran out while the loop still waited. -/
def completionWaitExit : List CompletionObs → Option CompletionObs
  | [] => none
  | o :: rest => if waitContinues o then completionWaitExit rest else some o

/-- The guard on sending the final aggregate response message
(websocket-handler.ts lines 353-360): after the wait loop exits, the
non-partial response carrying the full text is sent if and only if the
LLM controller is not aborted. -/
def sendsFinalResponse (o : CompletionObs) : Bool := !o.llmAborted

/-- Initial configuration for the interrupt trace of claim C1: one
generation is in progress, its first sentence is queued, the drain loop
is about to run, the TTS socket has not been created yet, and the
session's first abort manager is live. -/
def c1Config : SysConfig :=
  { sentenceQueue := [("Sure, I can book that flight.".toList)],
    isProcessingResponse := true,
    managers := [{ ttsAborted := false, llmAborted := false }],
    currentMgr := 0,
    ttsWebSocketReady := false,
    drain := DrainPC.loopTop,
    sent := [] }

/-- The schedule of claim C1's trace: the drain loop shifts the sentence
and suspends creating the TTS socket; the user's interrupt message is
processed; then the connection, the synthesis request and two audio reads
resolve in the usual order. -/
def c1Schedule : List SysAct :=
  [SysAct.drainStep, SysAct.interrupt, SysAct.connectResolves,
   SysAct.sendResolves, SysAct.readChunk, SysAct.readChunk,
   SysAct.readEnd, SysAct.drainStep]

/-- A concrete busy session for the claim C8 witness. -/
def c8Session : SessionState :=
  { isProcessingResponse := true, sentenceQueue := [("Okay.".toList)],
    history := [], currentTranscript := [] }

/-- A concrete one-entry heap for claim C9: one stored message object
(reference 0) and one history object whose internal array (reference 0)
holds that message. -/
def c9Heap : ConvHeap :=
  { msgCells := [{ role := MessageRole.user, content := ("hi".toList), timestamp := 3 }],
    arrCells := [[0]] }

/-- The value external code writes into the stored message object for
the claim C9 counterexample. -/
def c9Mutated : ConversationMessage :=
  { role := MessageRole.user, content := ("hacked".toList), timestamp := 3 }

/-! ## Theorems -/

/-- Claim C2: the spec's Scenario A says the fragments "Hi ",
"there. How can ", "I help?" yield exactly the sentences "Hi there." and
"How can I help?".  Evaluating the embedded streamResponse segmentation
at exactly these fragments shows the code instead emits "How canI help?":
splitIntoSentences trims the buffered remainder "How can " to "How can",
so the space that separated "can" from the next fragment's "I" is lost.
This contradicts the scenario (and garbles the text sent to synthesis),
so the claim is recorded as a code bug. -/
theorem scenarioA_code_behavior :
    streamSentences [("Hi ".toList), ("there. How can ".toList), ("I help?".toList)]
        = [("Hi there.".toList), ("How canI help?".toList)]
      ∧ streamSentences [("Hi ".toList), ("there. How can ".toList), ("I help?".toList)]
        ≠ [("Hi there.".toList), ("How can I help?".toList)] := by
  decide

/-- Claim C4: segmentation is claimed lossless modulo single-space
normalization at sentence boundaries.  Evaluating the embedded code at
the fragments "Hi. How " and "are you?" refutes this: the emitted
sentences are "Hi." and "Howare you?", and even after normalizing ALL
whitespace on both sides (a reading at least as permissive as the claim)
the reassembled text differs from the streamed full text — the space
after "How" was deleted outright, gluing two words together.  Recorded
as a code bug (same root cause as C2: the remainder kept as the new
buffer is trimmed). -/
theorem segmentation_lossiness_code_behavior :
    streamSentences [("Hi. How ".toList), ("are you?".toList)]
        = [("Hi.".toList), ("Howare you?".toList)]
      ∧ streamFullText [("Hi. How ".toList), ("are you?".toList)]
        = ("Hi. How are you?".toList)
      ∧ normalizeWs (joinWithSpace
            (streamSentences [("Hi. How ".toList), ("are you?".toList)]))
        ≠ normalizeWs (streamFullText [("Hi. How ".toList), ("are you?".toList)]) := by
  decide

/-- Claim C1: immediately after an interrupt the queue is empty,
isProcessingResponse is false and tts_stopped was sent (first three
conjuncts below) — but the final "no audio_chunk from a sentence queued
before the interrupt is ever emitted afterwards" fails.  In the schedule
c1Schedule the drain loop has shifted the pre-interrupt sentence and is
suspended at ttsWs.connect() when the interrupt is processed;
handleInterrupt replaces session.abortManager with a fresh
SessionAbortManager, so when the connection resolves,
streamTTSForSentence captures the fresh, non-aborted TTS controller
(websocket-handler.ts line 413) and the read loop of readAudioChunks
never sees an abort: every audio chunk of the interrupted sentence is
sent to the client after tts_stopped.  Recorded as a code bug. -/
theorem interrupt_stale_audio_code_behavior :
    (sysRun c1Config [SysAct.drainStep, SysAct.interrupt]).sentenceQueue = []
      ∧ (sysRun c1Config [SysAct.drainStep, SysAct.interrupt]).isProcessingResponse = false
      ∧ (sysRun c1Config [SysAct.drainStep, SysAct.interrupt]).sent = [OutMsg.ttsStopped]
      ∧ ("Sure, I can book that flight.".toList) ∈ c1Config.sentenceQueue
      ∧ (sysRun c1Config c1Schedule).sent
          = [OutMsg.ttsStopped,
             OutMsg.audioChunk ("Sure, I can book that flight.".toList),
             OutMsg.audioChunk ("Sure, I can book that flight.".toList)] := by
  decide

/-- Claim C3, counterexample: the claim says that whenever the 30-second
completion wait times out, the final aggregate response is not sent.  At
an observation where TTS work remains, 30000 ms have elapsed and the LLM
controller is not aborted, the loop indeed exits — but the source's send
guard (websocket-handler.ts line 353) tests only the abort flag, so the
final response IS sent. -/
theorem completionWait_timeout_sends_final_anyway :
    completionWaitExit
        [{ processingQueue := true, queueLength := 2, llmAborted := false,
           elapsedMs := 30000 }]
      = some { processingQueue := true, queueLength := 2, llmAborted := false,
               elapsedMs := 30000 }
      ∧ maxWaitTime ≤ (30000 : Nat)
      ∧ sendsFinalResponse
          { processingQueue := true, queueLength := 2, llmAborted := false,
            elapsedMs := 30000 } = true := by
  decide

/-- Claim C3, amended: the completion wait is bounded by the hard
30-second timeout — the loop never continues at an observation whose
elapsed time reaches maxWaitTime, so as soon as such an observation is
polled the wait is abandoned; but the final aggregate response is
withheld if and only if the LLM controller is aborted at loop exit — a
pure timeout does not suppress it. -/
theorem completionWait_bounded_abort_guards_send (obs : List CompletionObs) :
    ((∃ x ∈ obs, maxWaitTime ≤ x.elapsedMs) → (completionWaitExit obs).isSome = true)
      ∧ (∀ o, completionWaitExit obs = some o →
          waitContinues o = false
            ∧ (sendsFinalResponse o = true ↔ o.llmAborted = false)) := by
  constructor
  · intro hx
    induction obs with
    | nil => simp at hx
    | cons o rest ih =>
        by_cases hc : waitContinues o = true
        · have hrest : ∃ x ∈ rest, maxWaitTime ≤ x.elapsedMs := by
            rcases hx with ⟨x, hmem, hle⟩
            rcases List.mem_cons.mp hmem with h1 | h1
            · exfalso
              subst h1
              have : x.elapsedMs < maxWaitTime := by
                simp only [waitContinues, Bool.and_eq_true, decide_eq_true_eq] at hc
                exact hc.1.2
              omega
            · exact ⟨x, h1, hle⟩
          have := ih hrest
          simpa [completionWaitExit, hc] using this
        · simp only [Bool.not_eq_true] at hc
          simp [completionWaitExit, hc]
  · intro o hexit
    have hcont : waitContinues o = false := by
      induction obs with
      | nil => simp [completionWaitExit] at hexit
      | cons x rest ih =>
          by_cases hc : waitContinues x = true
          · exact ih (by simpa [completionWaitExit, hc] using hexit)
          · simp only [Bool.not_eq_true] at hc
            simp only [completionWaitExit, hc, if_neg] at hexit
            simp only [Bool.false_eq_true, if_false, Option.some.injEq] at hexit
            subst hexit
            exact hc
    refine ⟨hcont, ?_⟩
    cases h : o.llmAborted <;> simp [sendsFinalResponse, h]

/-- Witness for the amended claim C3 at a concrete observation list. -/
theorem completionWait_bounded_abort_guards_send_witness :
    (completionWaitExit
        [{ processingQueue := true, queueLength := 2, llmAborted := false,
           elapsedMs := 30000 }]).isSome = true
      ∧ (waitContinues
           { processingQueue := true, queueLength := 2, llmAborted := false,
             elapsedMs := 30000 } = false
          ∧ (sendsFinalResponse
               { processingQueue := true, queueLength := 2, llmAborted := false,
                 elapsedMs := 30000 } = true
              ↔ ({ processingQueue := true, queueLength := 2, llmAborted := false,
                   elapsedMs := 30000 } : CompletionObs).llmAborted = false)) := by
  refine ⟨?_, ?_⟩
  · exact (completionWait_bounded_abort_guards_send
      [{ processingQueue := true, queueLength := 2, llmAborted := false,
         elapsedMs := 30000 }]).1
      ⟨{ processingQueue := true, queueLength := 2, llmAborted := false,
         elapsedMs := 30000 }, by simp, by decide⟩
  · exact (completionWait_bounded_abort_guards_send
      [{ processingQueue := true, queueLength := 2, llmAborted := false,
         elapsedMs := 30000 }]).2 _ (by decide)

/-- Keeping the last n entries of a list no longer than n keeps it all. -/
theorem lastN_of_le {n : Nat} {l : List ConversationMessage} (h : l.length ≤ n) :
    lastN n l = l := by
  have hz : l.length - n = 0 := by omega
  simp [lastN, hz]

/-- One append step commutes with capping to the last maxMessages
entries: appending to a capped log and re-capping equals capping the
uncapped log extended by the (trimmed, non-empty) message, and an
empty-after-trim content leaves the log untouched. -/
theorem addMessage_lastN (max : Nat) (v : List ConversationMessage)
    (r : MessageRole) (c : List Char) (now : Nat) :
    addMessage max (lastN max v) r c now
      = if (jsTrim c).isEmpty then lastN max v
        else lastN max (v ++ [{ role := r, content := jsTrim c, timestamp := now }]) := by
  by_cases hc : (jsTrim c).isEmpty
  · simp [addMessage, hc]
  · simp only [addMessage, hc, if_false, Bool.false_eq_true]
    set m : ConversationMessage := { role := r, content := jsTrim c, timestamp := now } with hm
    by_cases hv : v.length < max
    · have h1 : lastN max v = v := lastN_of_le (by omega)
      rw [h1]
      have h2 : ¬ max < (v ++ [m]).length := by
        simp only [List.length_append, List.length_cons, List.length_nil]
        omega
      rw [if_neg h2,
        lastN_of_le (by simp only [List.length_append, List.length_cons, List.length_nil]; omega)]
    · have hge : max ≤ v.length := by omega
      have hlen : (lastN max v).length = max := by
        simp only [lastN, List.length_drop]
        omega
      have hcond : max < (lastN max v ++ [m]).length := by
        simp only [List.length_append, hlen, List.length_cons, List.length_nil]
        omega
      rw [if_pos hcond]
      have hdrop1 : (lastN max v ++ [m]).length - max = 1 := by
        simp only [List.length_append, hlen, List.length_cons, List.length_nil]
        omega
      rw [hdrop1]
      rcases Nat.eq_zero_or_pos max with hmax | hmax
      · subst hmax
        have h0 : lastN 0 v = [] := by
          simp [lastN]
        rw [h0]
        simp [lastN]
      · have hk : v.length - max + 1 ≤ v.length := by omega
        calc (lastN max v ++ [m]).drop 1
            = (lastN max v).drop 1 ++ [m] := by
              rw [List.drop_append_of_le_length (by omega)]
          _ = v.drop (v.length - max + 1) ++ [m] := by
              rw [lastN, List.drop_drop]
          _ = lastN max (v ++ [m]) := by
              have hlen2 : (v ++ [m]).length - max = v.length - max + 1 := by
                simp only [List.length_append, List.length_cons, List.length_nil]
                omega
              rw [lastN, hlen2, List.drop_append_of_le_length hk]

/-- Folding a sequence of appends over a capped log yields the cap of the
full filtered append sequence. -/
theorem foldl_addMessage_lastN (max : Nat) :
    ∀ (inputs : List AddInput) (v : List ConversationMessage),
    inputs.foldl (fun msgs i => addMessage max msgs i.role i.content i.now) (lastN max v)
      = lastN max (v ++ validMessages inputs) := by
  intro inputs
  induction inputs with
  | nil => intro v; simp [validMessages]
  | cons i rest ih =>
      intro v
      simp only [List.foldl_cons, validMessages, List.filterMap_cons]
      by_cases hc : (jsTrim i.content).isEmpty
      · rw [addMessage_lastN, if_pos hc]
        simp only [hc, reduceIte]
        exact ih v
      · rw [addMessage_lastN, if_neg hc]
        simp only [hc, Bool.false_eq_true, reduceIte]
        rw [ih (v ++ [({ role := i.role, content := jsTrim i.content, timestamp := i.now } : ConversationMessage)])]
        rw [List.append_assoc]
        rfl

/-- Claim C5: for every sequence of addUserMessage / addAssistantMessage
calls and every maxMessages, the stored history never exceeds
maxMessages entries after an append completes, and it equals exactly the
last maxMessages of the non-empty-after-trim appended messages in their
original append order — eviction removes only from the oldest end. -/
theorem conversationMemory_cap_recency (maxMessages : Nat) (inputs : List AddInput) :
    (runAdds maxMessages inputs).length ≤ maxMessages
      ∧ runAdds maxMessages inputs = lastN maxMessages (validMessages inputs) := by
  have h : runAdds maxMessages inputs = lastN maxMessages (validMessages inputs) := by
    have h0 : (lastN maxMessages []) = ([] : List ConversationMessage) := by
      simp [lastN]
    have := foldl_addMessage_lastN maxMessages inputs []
    rw [h0] at this
    simpa [runAdds] using this
  refine ⟨?_, h⟩
  rw [h]
  simp only [lastN, List.length_drop]
  omega

/-- Estimated tokens are additive over append. -/
theorem sumEstimatedTokens_append (l1 l2 : List ConversationMessage) :
    sumEstimatedTokens (l1 ++ l2) = sumEstimatedTokens l1 + sumEstimatedTokens l2 := by
  simp [sumEstimatedTokens]

/-- Estimated tokens are invariant under reversal. -/
theorem sumEstimatedTokens_reverse (l : List ConversationMessage) :
    sumEstimatedTokens l.reverse = sumEstimatedTokens l := by
  simp only [sumEstimatedTokens, List.map_reverse]
  exact List.sum_reverse _

/-- Dropping entries cannot increase the estimated token total. -/
theorem sumEstimatedTokens_drop_le (l : List ConversationMessage) (m : Nat) :
    sumEstimatedTokens (l.drop m) ≤ sumEstimatedTokens l := by
  conv_rhs => rw [← List.take_append_drop m l]
  rw [sumEstimatedTokens_append]
  exact Nat.le_add_left _ _

/-- A longer suffix has at least the estimated token total of a shorter one. -/
theorem sumEstimatedTokens_drop_mono (l : List ConversationMessage) {i j : Nat}
    (h : i ≤ j) :
    sumEstimatedTokens (l.drop j) ≤ sumEstimatedTokens (l.drop i) := by
  have hd : l.drop j = (l.drop i).drop (j - i) := by
    rw [List.drop_drop]
    congr 1
    omega
  rw [hd]
  exact sumEstimatedTokens_drop_le _ _

/-- The newest-first budget walk takes exactly a prefix: it fits in the
remaining budget, and either it exhausted the list or adding the next
message would exceed the budget. -/
theorem takeWithinBudget_spec (budget : Nat) :
    ∀ (l : List ConversationMessage) (t : Nat), t ≤ budget →
    ∃ n, n ≤ l.length ∧ takeWithinBudget budget t l = l.take n
      ∧ t + sumEstimatedTokens (l.take n) ≤ budget
      ∧ (n = l.length ∨ budget < t + sumEstimatedTokens (l.take (n + 1))) := by
  intro l
  induction l with
  | nil =>
      intro t ht
      exact ⟨0, by simp, by simp [takeWithinBudget],
        by simpa [sumEstimatedTokens] using ht, Or.inl rfl⟩
  | cons m rest ih =>
      intro t ht
      by_cases hover : budget < t + estimateMessageTokens m
      · refine ⟨0, by simp, ?_, ?_, Or.inr ?_⟩
        · simp [takeWithinBudget, hover]
        · simpa [sumEstimatedTokens] using ht
        · simpa [sumEstimatedTokens] using hover
      · push_neg at hover
        obtain ⟨n, hn, heq, hsum, hlast⟩ := ih (t + estimateMessageTokens m) hover
        refine ⟨n + 1, by simpa using hn, ?_, ?_, ?_⟩
        · have hnlt : ¬ budget < t + estimateMessageTokens m := by omega
          simp [takeWithinBudget, hnlt, heq]
        · simp only [List.take_succ_cons, sumEstimatedTokens, List.map_cons, List.sum_cons]
          simp only [sumEstimatedTokens] at hsum
          omega
        · rcases hlast with h1 | h1
          · exact Or.inl (by simp [h1])
          · refine Or.inr ?_
            simp only [List.take_succ_cons, sumEstimatedTokens, List.map_cons, List.sum_cons]
            simp only [sumEstimatedTokens] at h1
            omega

/-- Reversing the take of a reverse is a drop. -/
theorem reverse_take_reverse (l : List ConversationMessage) (n : Nat) :
    (l.reverse.take n).reverse = l.drop (l.length - n) := by
  rw [List.take_reverse, List.reverse_reverse]

/-- Claim C6: getMessagesForLLM returns a contiguous suffix of the stored
log in chronological order: there is a k such that the result is the
projection of msgs.drop k, the suffix's accumulated cost (with each
message costing ceil(length/4) + 4) fits the budget, and every longer
suffix exceeds it — i.e. the backward walk from the newest message
stopped at the first older message whose inclusion would exceed the
budget. -/
theorem getMessagesForLLM_recency_suffix (budget : Nat) (msgs : List ConversationMessage) :
    ∃ k, k ≤ msgs.length
      ∧ trimToTokenBudget budget msgs = msgs.drop k
      ∧ getMessagesForLLM budget msgs = (msgs.drop k).map (fun m => (m.role, m.content))
      ∧ sumEstimatedTokens (msgs.drop k) ≤ budget
      ∧ (∀ j, j < k → budget < sumEstimatedTokens (msgs.drop j)) := by
  obtain ⟨n, hn, heq, hsum, hlast⟩ :=
    takeWithinBudget_spec budget msgs.reverse 0 (Nat.zero_le _)
  rw [List.length_reverse] at hn
  have htrim : trimToTokenBudget budget msgs = msgs.drop (msgs.length - n) := by
    rw [trimToTokenBudget, heq, reverse_take_reverse]
  refine ⟨msgs.length - n, by omega, htrim, ?_, ?_, ?_⟩
  · rw [getMessagesForLLM, htrim]
  · have h1 : sumEstimatedTokens (msgs.drop (msgs.length - n))
        = sumEstimatedTokens (msgs.reverse.take n) := by
      rw [← reverse_take_reverse, sumEstimatedTokens_reverse]
    omega
  · intro j hj
    have hnlt : n < msgs.length := by omega
    rcases hlast with h1 | h1
    · rw [List.length_reverse] at h1
      omega
    · have h2 : sumEstimatedTokens (msgs.reverse.take (n + 1))
          = sumEstimatedTokens (msgs.drop (msgs.length - (n + 1))) := by
        rw [← reverse_take_reverse, sumEstimatedTokens_reverse]
      have h3 : sumEstimatedTokens (msgs.drop (msgs.length - (n + 1)))
          ≤ sumEstimatedTokens (msgs.drop j) :=
        sumEstimatedTokens_drop_mono msgs (by omega)
      omega

/-- Registering callbacks never changes the aborted flag. -/
theorem onAbort_aborted {kappa : Type} [DecidableEq kappa]
    (s : TTSAbortController kappa) (cb : kappa) : (onAbort s cb).aborted = s.aborted := by
  unfold onAbort
  split <;> rfl

/-- Deregistering callbacks never changes the aborted flag. -/
theorem offAbort_aborted {kappa : Type} [DecidableEq kappa]
    (s : TTSAbortController kappa) (cb : kappa) : (offAbort s cb).aborted = s.aborted := rfl

/-- A fold of registrations never changes the aborted flag. -/
theorem foldl_onAbort_aborted {kappa : Type} [DecidableEq kappa]
    (regs : List kappa) : ∀ (c : TTSAbortController kappa),
    (regs.foldl onAbort c).aborted = c.aborted := by
  induction regs with
  | nil => intro c; rfl
  | cons r rest ih =>
      intro c
      rw [List.foldl_cons, ih, onAbort_aborted]

/-- A fold of registrations keeps the callback list duplicate free. -/
theorem foldl_onAbort_nodup {kappa : Type} [DecidableEq kappa]
    (regs : List kappa) : ∀ (c : TTSAbortController kappa),
    c.abortCallbacks.Nodup → (regs.foldl onAbort c).abortCallbacks.Nodup := by
  induction regs with
  | nil => intro c hc; exact hc
  | cons r rest ih =>
      intro c hc
      rw [List.foldl_cons]
      apply ih
      unfold onAbort
      split
      · exact hc
      · next hmem =>
          exact List.Nodup.append hc (List.nodup_singleton r)
            (by simpa [List.Disjoint] using fun a ha hr => hmem (by rwa [hr] at ha))

/-- Membership in the callback list after a fold of registrations. -/
theorem foldl_onAbort_mem {kappa : Type} [DecidableEq kappa]
    (regs : List kappa) : ∀ (c : TTSAbortController kappa) (cb : kappa),
    cb ∈ (regs.foldl onAbort c).abortCallbacks
      ↔ cb ∈ c.abortCallbacks ∨ cb ∈ regs := by
  induction regs with
  | nil => intro c cb; simp
  | cons r rest ih =>
      intro c cb
      rw [List.foldl_cons, ih]
      constructor
      · rintro (h1 | h1)
        · unfold onAbort at h1
          split at h1
          · exact Or.inl h1
          · rcases List.mem_append.mp h1 with h2 | h2
            · exact Or.inl h2
            · simp only [List.mem_singleton] at h2
              exact Or.inr (by simp [h2])
        · exact Or.inr (List.mem_cons_of_mem r h1)
      · rintro (h1 | h1)
        · refine Or.inl ?_
          unfold onAbort
          split
          · exact h1
          · exact List.mem_append.mpr (Or.inl h1)
        · rcases List.mem_cons.mp h1 with h2 | h2
          · refine Or.inl ?_
            subst h2
            unfold onAbort
            split
            · assumption
            · exact List.mem_append.mpr (Or.inr (by simp))
          · exact Or.inr h2

/-- Claim C7: abort() is idempotent and runs each registered cleanup
exactly once.  For a controller built from any registration sequence:
the first abort sets the flag; its invocation trace is exactly the
stored callback list (registration order), which is duplicate free (each
callback runs exactly once) and contains precisely the registered
callbacks; and a second abort returns the state unchanged with an empty
invocation trace. -/
theorem abort_idempotent_runs_callbacks_once {kappa : Type} [DecidableEq kappa]
    (regs : List kappa) :
    (abort (regs.foldl onAbort (newController : TTSAbortController kappa))).1.aborted = true
      ∧ (abort (regs.foldl onAbort (newController : TTSAbortController kappa))).2
          = (regs.foldl onAbort (newController : TTSAbortController kappa)).abortCallbacks
      ∧ (abort (regs.foldl onAbort (newController : TTSAbortController kappa))).2.Nodup
      ∧ (∀ cb, cb ∈ (abort (regs.foldl onAbort (newController : TTSAbortController kappa))).2
            ↔ cb ∈ regs)
      ∧ abort (abort (regs.foldl onAbort (newController : TTSAbortController kappa))).1
          = ((abort (regs.foldl onAbort (newController : TTSAbortController kappa))).1, []) := by
  have hfalse : (regs.foldl onAbort (newController : TTSAbortController kappa)).aborted = false := by
    rw [foldl_onAbort_aborted]
    rfl
  have habort : abort (regs.foldl onAbort (newController : TTSAbortController kappa))
      = ({ aborted := true, abortCallbacks := [] },
         (regs.foldl onAbort (newController : TTSAbortController kappa)).abortCallbacks) := by
    simp [abort, hfalse]
  refine ⟨by rw [habort], by rw [habort], ?_, ?_, ?_⟩
  · rw [habort]
    exact foldl_onAbort_nodup regs newController (List.nodup_nil)
  · intro cb
    rw [habort]
    have := foldl_onAbort_mem regs (newController : TTSAbortController kappa) cb
    simpa [newController] using this
  · rw [habort]
    simp [abort]

/-- Once a controller is aborted, no sequence of further operations ever
invokes a callback: abort short-circuits on the set flag. -/
theorem runCtrlOps_aborted_silent {kappa : Type} [DecidableEq kappa] :
    ∀ (ops : List (CtrlOp kappa)) (s : TTSAbortController kappa),
    s.aborted = true → (runCtrlOps s ops).2 = [] := by
  intro ops
  induction ops with
  | nil => intro s _; rfl
  | cons op rest ih =>
      intro s hs
      cases op with
      | reg cb =>
          simp only [runCtrlOps]
          exact ih _ (by rw [onAbort_aborted]; exact hs)
      | dereg cb =>
          simp only [runCtrlOps]
          exact ih _ (by rw [offAbort_aborted]; exact hs)
      | abortCall =>
          have hab : abort s = (s, []) := by simp [abort, hs]
          simp only [runCtrlOps, hab]
          simpa using ih s hs

/-- Claim C10: a callback registered via onAbort after abort() has run is
never invoked.  The first abort cleared the callback set and left the
flag set; registering cb afterwards and running ANY further sequence of
register / deregister / abort operations produces an empty invocation
trace, because every later abort() returns immediately — the late
callback is silently dropped, neither run immediately nor on a later
abort. -/
theorem late_registered_callback_never_runs {kappa : Type} [DecidableEq kappa]
    (s0 : TTSAbortController kappa) (h : s0.aborted = false) (cb : kappa)
    (ops : List (CtrlOp kappa)) :
    (abort s0).1.abortCallbacks = []
      ∧ (abort s0).1.aborted = true
      ∧ (runCtrlOps (onAbort (abort s0).1 cb) ops).2 = [] := by
  have h1 : abort s0 = ({ aborted := true, abortCallbacks := [] }, s0.abortCallbacks) := by
    simp [abort, h]
  refine ⟨by rw [h1], by rw [h1], ?_⟩
  apply runCtrlOps_aborted_silent
  rw [onAbort_aborted, h1]

/-- Witness for claim C10 at a concrete controller, callback and
operation sequence. -/
theorem late_registered_callback_never_runs_witness :
    (abort (newController : TTSAbortController Nat)).1.abortCallbacks = []
      ∧ (abort (newController : TTSAbortController Nat)).1.aborted = true
      ∧ (runCtrlOps (onAbort (abort (newController : TTSAbortController Nat)).1 0)
          [CtrlOp.abortCall]).2 = [] :=
  late_registered_callback_never_runs newController rfl 0 [CtrlOp.abortCall]

/-- Appending a non-empty-after-trim message makes it the newest stored
entry, whatever the cap (as long as the cap is positive) evicted from the
oldest end. -/
theorem addMessage_getLast (max : Nat) (hmax : 0 < max)
    (msgs : List ConversationMessage) (r : MessageRole) (c : List Char) (now : Nat)
    (hc : (jsTrim c).isEmpty = false) :
    (addMessage max msgs r c now).getLast?
      = some { role := r, content := jsTrim c, timestamp := now } := by
  simp only [addMessage, hc, Bool.false_eq_true, if_false]
  set m : ConversationMessage := { role := r, content := jsTrim c, timestamp := now } with hm
  split
  · next hlen =>
      have hk : (msgs ++ [m]).length - max ≤ msgs.length := by
        simp only [List.length_append, List.length_cons, List.length_nil]
        omega
      rw [List.drop_append_of_le_length hk]
      exact List.getLast?_concat _
  · exact List.getLast?_concat _

/-- Claim C8: a generation trigger (EndOfTurn, EagerEndOfTurn, or a final
transcript) arriving while isProcessingResponse is already true still
appends the transcript to conversation memory, but skips the generation
start: the sentence queue is untouched, the flag stays true, and no
generator stream is opened — the trigger is dropped, not queued for
retry. -/
theorem second_trigger_skips_generation (s : SessionState) (t : List Char) (now : Nat)
    (hproc : s.isProcessingResponse = true) (ht : (jsTrim t).isEmpty = false) :
    (handleEndOfTurn s t now).1.sentenceQueue = s.sentenceQueue
      ∧ (handleEndOfTurn s t now).1.isProcessingResponse = true
      ∧ (handleEndOfTurn s t now).1.history.getLast?
          = some { role := MessageRole.user, content := jsTrim t, timestamp := now }
      ∧ startedGenerationIn (handleEndOfTurn s t now).2 = false
      ∧ handleEagerEndOfTurn s t now
          = ((handleEndOfTurn s t now).1,
             [TriggerEffect.sentTranscript t true])
      ∧ handleFinalResult s t now = handleEndOfTurn s t now := by
  have htne : t.isEmpty = false := by
    cases t with
    | nil => simp [jsTrim] at ht
    | cons c cs => rfl
  have hmain : ∀ (flag : Bool),
      handleTurnTrigger flag s t now
        = ({ s with
                currentTranscript := t,
                history := addMessage 50 s.history MessageRole.user t now,
                isProcessingResponse := true },
            [TriggerEffect.sentTranscript t flag]) := by
    intro flag
    simp only [handleTurnTrigger, htne, Bool.false_eq_true, if_false,
      generateLLMResponseEntry, hproc, reduceIte, List.append_nil]
  refine ⟨?_, ?_, ?_, ?_, ?_, ?_⟩
  · rw [handleEndOfTurn, hmain]
  · rw [handleEndOfTurn, hmain]
  · rw [handleEndOfTurn, hmain]
    exact addMessage_getLast 50 (by omega) s.history MessageRole.user t now ht
  · rw [handleEndOfTurn, hmain]
    rfl
  · rw [handleEagerEndOfTurn, handleEndOfTurn, hmain, hmain]
  · rw [handleFinalResult, handleEndOfTurn]

/-- Witness for claim C8 at a concrete busy session and transcript. -/
theorem second_trigger_skips_generation_witness :
    (handleEndOfTurn c8Session ("book a flight".toList) 7).1.sentenceQueue
        = c8Session.sentenceQueue
      ∧ (handleEndOfTurn c8Session ("book a flight".toList) 7).1.isProcessingResponse = true
      ∧ (handleEndOfTurn c8Session ("book a flight".toList) 7).1.history.getLast?
          = some { role := MessageRole.user, content := jsTrim ("book a flight".toList),
                   timestamp := 7 }
      ∧ startedGenerationIn (handleEndOfTurn c8Session ("book a flight".toList) 7).2 = false
      ∧ handleEagerEndOfTurn c8Session ("book a flight".toList) 7
          = ((handleEndOfTurn c8Session ("book a flight".toList) 7).1,
             [TriggerEffect.sentTranscript ("book a flight".toList) true])
      ∧ handleFinalResult c8Session ("book a flight".toList) 7
          = handleEndOfTurn c8Session ("book a flight".toList) 7 :=
  second_trigger_skips_generation c8Session ("book a flight".toList) 7 rfl (by decide)

/-- The internal array reference dereferences to the same reference list
before and after the allocation performed by getFullHistory (whether or
not the internal reference is in range: out of range it reads the empty
default on both sides, and the freshly appended cell then holds exactly
that default). -/
theorem getFullHistoryH_readArr_self (h : ConvHeap) (self : Nat) :
    (getFullHistoryH h self).1.readArr self = h.readArr self := by
  show (h.arrCells ++ [h.readArr self]).getD self [] = h.readArr self
  by_cases hlt : self < h.arrCells.length
  · rw [List.getD_eq_getElem?_getD, List.getElem?_append_left hlt,
      ConvHeap.readArr, List.getD_eq_getElem?_getD]
  · by_cases heq : self = h.arrCells.length
    · rw [heq, List.getD_eq_getElem?_getD, List.getElem?_concat_length]
      rfl
    · have hgt : h.arrCells.length < self := by omega
      have hnone1 : (h.arrCells ++ [h.readArr self])[self]? = none := by
        rw [List.getElem?_append_right (by omega)]
        apply List.getElem?_eq_none
        simp only [List.length_cons, List.length_nil]
        omega
      have hnone2 : h.arrCells[self]? = none := List.getElem?_eq_none (by omega)
      rw [List.getD_eq_getElem?_getD, hnone1, ConvHeap.readArr,
        List.getD_eq_getElem?_getD, hnone2]

/-- The reference returned by getFullHistory dereferences to the same
reference list as the internal array: the copy is shallow. -/
theorem getFullHistoryH_shares_refs (h : ConvHeap) (self : Nat) :
    (getFullHistoryH h self).1.readArr (getFullHistoryH h self).2 = h.readArr self := by
  show (h.arrCells ++ [h.readArr self]).getD h.arrCells.length [] = h.readArr self
  rw [List.getD_eq_getElem?_getD, List.getElem?_concat_length]
  rfl

/-- Claim C9, counterexample: the spread copy in getFullHistory is
SHALLOW.  At a concrete heap with one stored message, the returned array
is a fresh array object, but its sole element is the same
ConversationMessage reference held by the internal array; mutating that
message object through the returned array (external code assigning to
its content field) changes the internal log — a stored message was
exposed for external mutation, refuting the claim as stated. -/
theorem getFullHistory_shallow_copy_counterexample :
    (getFullHistoryH c9Heap 0).2 ≠ 0
      ∧ (getFullHistoryH c9Heap 0).1.readArr (getFullHistoryH c9Heap 0).2
          = (getFullHistoryH c9Heap 0).1.readArr 0
      ∧ ((getFullHistoryH c9Heap 0).1.writeMsg
            (((getFullHistoryH c9Heap 0).1.readArr (getFullHistoryH c9Heap 0).2).getD 0 0)
            c9Mutated).viewArr 0
          ≠ c9Heap.viewArr 0 := by
  decide

/-- Claim C9, amended: getMessagesForLLM and getSummary leave the heap
untouched, and getFullHistory leaves the stored message objects and the
internal log's view unchanged; the returned array is a FRESH array
object, so mutating the returned array itself (overwriting its
elements) never alters the internal log; but the copy is shallow — the
returned array holds the same message references as the internal one —
so mutating the fields of any message object obtained from the returned
array DOES alter the internal log: stored messages are exposed for
external mutation through getFullHistory. -/
theorem read_ops_fresh_array_but_shallow_copy (h : ConvHeap) (self : Nat)
    (budget : Nat) (varr : List Nat) (mr : Nat) (v2 : ConversationMessage) :
    (getMessagesForLLMH h self budget).1 = h
      ∧ (getSummaryH h self).1 = h
      ∧ (getFullHistoryH h self).1.msgCells = h.msgCells
      ∧ (getFullHistoryH h self).1.viewArr self = h.viewArr self
      ∧ (getFullHistoryH h self).1.readArr (getFullHistoryH h self).2 = h.readArr self
      ∧ (self < h.arrCells.length →
          (getFullHistoryH h self).2 ≠ self
            ∧ ((getFullHistoryH h self).1.writeArr (getFullHistoryH h self).2 varr).viewArr self
                = h.viewArr self)
      ∧ (mr ∈ (getFullHistoryH h self).1.readArr (getFullHistoryH h self).2 →
          mr < h.msgCells.length → v2 ≠ h.readMsg mr →
          ((getFullHistoryH h self).1.writeMsg mr v2).viewArr self ≠ h.viewArr self) := by
  refine ⟨rfl, rfl, rfl, ?_, getFullHistoryH_shares_refs h self, ?_, ?_⟩
  · show ((getFullHistoryH h self).1.readArr self).map (getFullHistoryH h self).1.readMsg
        = (h.readArr self).map h.readMsg
    rw [getFullHistoryH_readArr_self]
    rfl
  · intro hself
    refine ⟨by show h.arrCells.length ≠ self; omega, ?_⟩
    have harr : ((getFullHistoryH h self).1.writeArr
        (getFullHistoryH h self).2 varr).readArr self = h.readArr self := by
      show ((h.arrCells ++ [h.readArr self]).set h.arrCells.length varr).getD self []
          = h.arrCells.getD self []
      rw [List.getD_eq_getElem?_getD, List.getElem?_set_ne (by omega),
        List.getElem?_append_left hself, List.getD_eq_getElem?_getD]
    show (((getFullHistoryH h self).1.writeArr
        (getFullHistoryH h self).2 varr).readArr self).map
          ((getFullHistoryH h self).1.writeArr (getFullHistoryH h self).2 varr).readMsg
        = (h.readArr self).map h.readMsg
    rw [harr]
    rfl
  · intro hmem hmr hne heq
    rw [getFullHistoryH_shares_refs h self] at hmem
    obtain ⟨i, hi⟩ := List.mem_iff_getElem?.mp hmem
    have harr2 : ((getFullHistoryH h self).1.writeMsg mr v2).readArr self
        = h.readArr self := getFullHistoryH_readArr_self h self
    have hwrite : ((getFullHistoryH h self).1.writeMsg mr v2).readMsg mr = v2 := by
      show (h.msgCells.set mr v2).getD mr defaultMessage = v2
      rw [List.getD_eq_getElem?_getD, List.getElem?_set_self hmr]
      rfl
    have h1v : (((getFullHistoryH h self).1.writeMsg mr v2).viewArr self)[i]?
        = some v2 := by
      rw [ConvHeap.viewArr, List.getElem?_map, harr2, hi]
      exact congrArg some hwrite
    have h2v : (h.viewArr self)[i]? = some (h.readMsg mr) := by
      rw [ConvHeap.viewArr, List.getElem?_map, hi]
      rfl
    rw [heq, h2v] at h1v
    exact hne (by injection h1v with h3; exact h3.symm)

/-- Witness for the amended claim C9 at the concrete one-message heap:
the mutation hypotheses are discharged at message reference 0 and the
changed content value. -/
theorem read_ops_fresh_array_but_shallow_copy_witness :
    (getMessagesForLLMH c9Heap 0 8000).1 = c9Heap
      ∧ (getSummaryH c9Heap 0).1 = c9Heap
      ∧ (getFullHistoryH c9Heap 0).1.msgCells = c9Heap.msgCells
      ∧ (getFullHistoryH c9Heap 0).1.viewArr 0 = c9Heap.viewArr 0
      ∧ (getFullHistoryH c9Heap 0).1.readArr (getFullHistoryH c9Heap 0).2 = c9Heap.readArr 0
      ∧ ((getFullHistoryH c9Heap 0).2 ≠ 0
          ∧ ((getFullHistoryH c9Heap 0).1.writeArr (getFullHistoryH c9Heap 0).2 []).viewArr 0
              = c9Heap.viewArr 0)
      ∧ ((getFullHistoryH c9Heap 0).1.writeMsg 0 c9Mutated).viewArr 0 ≠ c9Heap.viewArr 0 := by
  have hmain := read_ops_fresh_array_but_shallow_copy c9Heap 0 8000 [] 0 c9Mutated
  exact ⟨hmain.1, hmain.2.1, hmain.2.2.1, hmain.2.2.2.1, hmain.2.2.2.2.1,
    hmain.2.2.2.2.2.1 (by decide),
    hmain.2.2.2.2.2.2 (by decide) (by decide) (by decide)⟩

end Keto
